import Mathlib

/-!
Verification of the event-to-timeline scheduler, lane assigner, clip resolver
and colour parser of the midi-to-video converter (src/music.py).

The Python source is shallowly embedded: every function below mirrors the
function of the same name in src/music.py.  Machine integers are modelled as
Nat, Python float seconds as exact rationals (ℚ), Python dicts as association
lists (only lookup / overwrite / pop are ever used by the source, so the
association-list operations below realise exactly the observed dict
behaviour), and exceptions as Except values.
-/

namespace MidiToVideo

/-! ### Association-list model of the Python dict operations used by the source -/

/-- Lookup of a key in an association list, first binding wins
(mirrors Python `d[k]` / `k in d`). -/
def dlookup {κ α : Type} [DecidableEq κ] : List (κ × α) → κ → Option α
  | [], _ => none
  | (k, v) :: rest, key => if k = key then some v else dlookup rest key

/-- Removal of every binding of a key (mirrors Python `d.pop(k)`). -/
def derase {κ α : Type} [DecidableEq κ] : List (κ × α) → κ → List (κ × α)
  | [], _ => []
  | (k, v) :: rest, key => if k = key then derase rest key else (k, v) :: derase rest key

/-- Overwriting insertion (mirrors Python `d[k] = v`). -/
def dinsert {κ α : Type} [DecidableEq κ] (d : List (κ × α)) (key : κ) (v : α) :
    List (κ × α) :=
  (key, v) :: derase d key

/-! ### Pitch names (`value_to_note`, using the midi library constants
`NOTE_NAMES`, `NOTE_PER_OCTAVE = 12`, `OCTAVE_MAX_VALUE = 12`) -/

def NOTE_NAMES : List String :=
  ["C", "C#", "D", "D#", "E", "F"] ++ ["F#", "G", "G#", "A", "A#", "B"]

/-- Mirrors `value_to_note`: note class is `value % 12`, octave is
`floor(value / 12)`. -/
def value_to_note (value : Nat) : String × Nat :=
  (NOTE_NAMES.getD (value % 12) "", value / 12)

/-! ### Plan records and the note on/off state machine -/

/-- Mirrors the Python 6-tuple
`(current_tick, seconds_in_track, note, octave, duration, velocity)`. -/
structure PlanRecord where
  start_tick : Nat
  start_seconds : ℚ
  note : String
  octave : Nat
  duration : ℚ
  velocity : Nat
deriving DecidableEq, Repr

/-- Mirrors `get_note_key`: the string `"{note}{octave}-{channel}"`. -/
def get_note_key (note : String) (octave : Nat) (channel : Nat) : String :=
  note ++ Nat.repr octave ++ "-" ++ Nat.repr channel

/-- Mirrors `calculate_seconds_per_tick` over exact rationals
(`60 * 1000000 / tempo / resolution / 1000000`). -/
def calculate_seconds_per_tick (tempo resolution : ℚ) : ℚ :=
  60 * 1000000 / tempo / resolution / 1000000

/-- Mirrors `turn_off_note`.  The inner `plan[note_index]` read cannot fail in
any reachable state (see `WFkey` below); the `none` branch, where Python would
raise IndexError, is modelled as leaving the state unchanged. -/
def turn_off_note (note : String) (octave channel : Nat) (seconds_per_tick : ℚ)
    (current_tick : Nat) (plan : List PlanRecord)
    (notes_currently_playing : List (String × Nat)) :
    List PlanRecord × List (String × Nat) :=
  let key := get_note_key note octave channel
  let current_seconds_in_track := seconds_per_tick * current_tick
  match dlookup notes_currently_playing key with
  | some note_index =>
    match plan[note_index]? with
    | some r =>
      (plan.set note_index { r with duration := current_seconds_in_track - r.start_seconds },
       derase notes_currently_playing key)
    | none => (plan, notes_currently_playing)
  | none => (plan, notes_currently_playing)

/-- Mirrors `turn_on_note`: close the note first if its key is already
playing (reading the stored record's note and octave back out of the plan,
as the source does), then append a fresh open record (duration 0) and index
it under the key. -/
def turn_on_note (note : String) (octave channel : Nat) (seconds_per_tick : ℚ)
    (current_tick : Nat) (plan : List PlanRecord)
    (notes_currently_playing : List (String × Nat)) (velocity : Nat) :
    List PlanRecord × List (String × Nat) :=
  let seconds_in_track := seconds_per_tick * current_tick
  let key := get_note_key note octave channel
  let closed :=
    match dlookup notes_currently_playing key with
    | some note_index =>
      match plan[note_index]? with
      | some r => turn_off_note r.note r.octave channel seconds_per_tick current_tick
          plan notes_currently_playing
      | none => (plan, notes_currently_playing)
    | none => (plan, notes_currently_playing)
  let plan2 := closed.1 ++ [⟨current_tick, seconds_in_track, note, octave, 0, velocity⟩]
  (plan2, dinsert closed.2 key (plan2.length - 1))

/-! ### Events and the scheduling loop (`generate_track_plan`) -/

inductive EventKind where
  | setTempo (bpm : ℚ)
  | noteOn (pitch channel velocity : Nat)
  | noteOff (pitch channel : Nat)
  | trackName (text : String)
  /-- any further event type; the scheduler's type dispatch ignores it -/
  | otherEvent
deriving DecidableEq, Repr

/-- An event as seen by the source: a tick delta plus its kind-specific data. -/
structure MidiEvent where
  tick : Nat
  kind : EventKind
deriving DecidableEq, Repr

/-- Scheduler state: the plan built so far, the `notes_currently_playing`
dict, and the current `seconds_per_tick` coefficient. -/
structure SchedState where
  plan : List PlanRecord
  playing : List (String × Nat)
  spt : ℚ
deriving DecidableEq, Repr

/-- The body of the inner `for event in events` loop of `generate_track_plan`
(type dispatch over the event kinds). -/
def processEvent (resolution : ℚ) (current_tick : Nat) (s : SchedState)
    (event : MidiEvent) : SchedState :=
  match event.kind with
  | .setTempo bpm => { s with spt := calculate_seconds_per_tick bpm resolution }
  | .noteOn pitch channel velocity =>
    let no := value_to_note pitch
    let pr := turn_on_note no.1 no.2 channel s.spt current_tick s.plan s.playing velocity
    { s with plan := pr.1, playing := pr.2 }
  | .noteOff pitch channel =>
    let no := value_to_note pitch
    let pr := turn_off_note no.1 no.2 channel s.spt current_tick s.plan s.playing
    { s with plan := pr.1, playing := pr.2 }
  | .trackName _ => s
  | .otherEvent => s

/-- One iteration of the outer `for current_tick in range(max_ticks)` loop:
nothing happens at a tick absent from the event map.  (The source's
`max_stack` bookkeeping is dead code for the returned plan and is omitted.) -/
def processTick (event_map : List (Nat × List MidiEvent)) (resolution : ℚ)
    (s : SchedState) (current_tick : Nat) : SchedState :=
  match dlookup event_map current_tick with
  | some events => events.foldl (processEvent resolution current_tick) s
  | none => s

/-- The full scheduler state after `generate_track_plan`'s loop. -/
def runSched (event_map : List (Nat × List MidiEvent)) (resolution : ℚ)
    (max_ticks : Nat) (initial_tempo : ℚ) : SchedState :=
  (List.range max_ticks).foldl (processTick event_map resolution)
    { plan := [], playing := [],
      spt := calculate_seconds_per_tick initial_tempo resolution }

/-- Mirrors `generate_track_plan` (its returned value, the plan list). -/
def generate_track_plan (event_map : List (Nat × List MidiEvent)) (resolution : ℚ)
    (max_ticks : Nat) (initial_tempo : ℚ) : List PlanRecord :=
  (runSched event_map resolution max_ticks initial_tempo).plan

/-! ### Tick indexing and stream analysis -/

/-- Appending an event to the bucket of its absolute tick
(mirrors the dict update in `map_events_by_tick`). -/
def addToMap (m : List (Nat × List MidiEvent)) (t : Nat) (e : MidiEvent) :
    List (Nat × List MidiEvent) :=
  match m with
  | [] => [(t, [e])]
  | (k, l) :: rest => if k = t then (k, l ++ [e]) :: rest else (k, l) :: addToMap rest t e

/-- Mirrors `map_events_by_tick`: cumulative tick sums index the events. -/
def map_events_by_tick (track : List MidiEvent) : List (Nat × List MidiEvent) :=
  (track.foldl
    (fun (acc : Nat × List (Nat × List MidiEvent)) e =>
      let current_tick := acc.1 + e.tick
      (current_tick, addToMap acc.2 current_tick e))
    (0, [])).2

/-- Mirrors `analyze_midi`: the largest cumulative tick total over the tracks
and the bpm of the first SetTempo event (scanning tracks in order).  The
file resolution is carried separately by the caller, as in the source. -/
def analyze_midi (pattern : List (List MidiEvent)) : Nat × Option ℚ :=
  pattern.foldl
    (fun (acc : Nat × Option ℚ) track =>
      let inner := track.foldl
        (fun (st : Nat × Option ℚ) e =>
          (st.1 + e.tick,
           match st.2, e.kind with
           | none, .setTempo bpm => some bpm
           | o, _ => o))
        (0, acc.2)
      (max inner.1 acc.1, inner.2))
    (0, none)

/-- Mirrors `grab_track_by_index` (`None` when the index is out of range). -/
def grab_track_by_index {α : Type} (pattern : List α) (index : Nat) : Option α :=
  pattern[index]?

/-- Mirrors `get_track_names`: the text of the first TrackName event of each
track that has one. -/
def get_track_names (pattern : List (List MidiEvent)) : List String :=
  pattern.filterMap fun track =>
    track.findSome? fun e =>
      match e.kind with
      | .trackName s => some s
      | _ => none

/-! ### Lane assigner (the lookahead state machine of `create_video`)

The media calls of `create_video` (decode, trim, fade, crop, compose) are
external collaborators; the algorithmic content modelled here is the per-record
layout annotation `(look_ahead_index, look_ahead_group_size)` computed by the
lookahead state machine, for a run with `start=None` and `end=None` (the
source defaults), under which no record is skipped and the loop never breaks
early. -/

/-- Mirrors the inner lookahead scan
`for look_p in plan[plan_key+1:]: if abs(look_tick - look_p[0]) < threshold: ... else break`. -/
def lookCount (threshold : Nat) (look_tick : Nat) : List PlanRecord → Nat
  | [] => 0
  | p :: rest =>
    if ((look_tick : Int) - p.start_tick).natAbs < threshold then
      lookCount threshold look_tick rest + 1
    else 0

/-- The lane state machine of `create_video`, carrying `look_ahead` and
`look_ahead_group_size` across iterations exactly as the source does, and
emitting per record the pair `(look_ahead_index, look_ahead_group_size)`. -/
def laneGo (threshold : Nat) : List PlanRecord → Nat → Nat → List (Nat × Nat)
  | [], _, _ => []
  | r :: rest, 0, _ =>
    let k := lookCount threshold r.start_tick rest
    if 0 < k then (0, k + 1) :: laneGo threshold rest (k + 1) (k + 1)
    else (0, 0) :: laneGo threshold rest 0 0
  | _r :: rest, la + 1, gs =>
    if 0 < la then (gs - la, gs) :: laneGo threshold rest la gs
    else (0, 0) :: laneGo threshold rest 0 0

/-- The layout annotations `create_video` computes for an ordered plan. -/
def lane_annotations (threshold : Nat) (plan : List PlanRecord) : List (Nat × Nat) :=
  laneGo threshold plan 0 0

/-! ### Clip resolver (`map_videos`) -/

/-- First existing file among a list of candidate paths (a Python
for-loop with break). -/
def firstExisting (isfile : String → Bool) (paths : List String) : Option String :=
  paths.find? isfile

/-- Candidate path `"{video_dir}/{note}{i}.mp4"` for an octave `i`. -/
def octPath (video_dir note : String) (i : Nat) : String :=
  video_dir ++ "/" ++ note ++ Nat.repr i ++ "." ++ "mp4"

/-- The per-note resolution performed by one iteration of `map_videos`'s loop:
exact `"{note}{oct}.mp4"` match, then octave-less `"{note}.mp4"`, then for
`oct <= 3` the octaves `oct, oct+1, ..., 3` in order, and for `oct > 3` the
octaves `oct, oct-1, ..., 4` in order (Python `range(oct, mid+1)` and
`range(oct, mid, -1)` with `mid = 3`). -/
def findPath (isfile : String → Bool) (video_dir note : String) (oct : Nat) :
    Option String :=
  let mid := 3
  if isfile (octPath video_dir note oct) then some (octPath video_dir note oct)
  else if isfile (video_dir ++ "/" ++ note ++ "." ++ "mp4") then
    some (video_dir ++ "/" ++ note ++ "." ++ "mp4")
  else if oct ≤ mid then
    firstExisting isfile ((List.range' oct (mid + 1 - oct)).map (octPath video_dir note))
  else
    firstExisting isfile (((List.range' (mid + 1) (oct - mid)).reverse).map (octPath video_dir note))

/-- The dict key `"{note}{oct}"` under which a pitch value's clip is stored. -/
def noteKeyOf (n : Nat) : String :=
  (value_to_note n).1 ++ Nat.repr (value_to_note n).2

/-- The body of `map_videos`'s loop for one pitch value: resolve a path and
store it under the note name (missing notes produce a warning and no entry). -/
def mapVideosStep (isfile : String → Bool) (video_dir : String)
    (video_map : List (String × String)) (n : Nat) : List (String × String) :=
  match findPath isfile video_dir (value_to_note n).1 (value_to_note n).2 with
  | some path => dinsert video_map (noteKeyOf n) path
  | none => video_map

/-- Mirrors `map_videos`: the loop over the pitch values 0..127. -/
def map_videos (isfile : String → Bool) (video_dir : String) : List (String × String) :=
  (List.range 128).foldl (mapVideosStep isfile video_dir) []

/-! ### Colour parser (`hex_to_rgb`) and the render path of `main` -/

/-- Hexadecimal value of a single character, as accepted by Python
`int(_, 16)`. -/
def hexVal (c : Char) : Option Nat :=
  if '0' ≤ c ∧ c ≤ '9' then some (c.toNat - '0'.toNat)
  else if 'a' ≤ c ∧ c ≤ 'f' then some (c.toNat - 'a'.toNat + 10)
  else if 'A' ≤ c ∧ c ≤ 'F' then some (c.toNat - 'A'.toNat + 10)
  else none

/-- Accumulating parse of a nonempty run of hex digits. -/
def parseHexDigits : List Char → Option Nat
  | [] => none
  | [c] => hexVal c
  | c :: rest =>
    match hexVal c, parseHexDigits rest with
    | some d, some n => some (d * 16 + n)
    | _, _ => none

/-- Model of Python `int(s, 16)` on the short strings `hex_to_rgb` feeds it:
surrounding whitespace and a leading sign are tolerated, then a nonempty run
of hex digits (an optional `0x`/`0X` prefix may follow the sign; underscore
digit grouping cannot occur in the 2-character slices used here and is
omitted).  Failure models Python's ValueError. -/
def pyIntHex (l : List Char) : Except String Int :=
  let t := (l.dropWhile Char.isWhitespace).reverse.dropWhile Char.isWhitespace |>.reverse
  let core : List Char → Except String Int := fun u =>
    let u' := match u with
      | '0' :: 'x' :: rest => rest
      | '0' :: 'X' :: rest => rest
      | rest => rest
    match parseHexDigits u' with
    | some n => .ok (n : Int)
    | none => .error "invalid literal for int with base 16"
  match t with
  | '+' :: rest => core rest
  | '-' :: rest => (core rest).map (fun n => -n)
  | rest => core rest

/-- Mirrors `hex_to_rgb`: strip (whitespace removed from both ends,
character-wise), drop a leading `#`, require six characters, parse the three
2-character slices in base 16.  Python's IndexError on the empty string and
its ValueError are both modelled as `Except.error`. -/
def hex_to_rgb (colorstring : String) : Except String (Int × Int × Int) :=
  match (colorstring.data.dropWhile Char.isWhitespace).reverse.dropWhile
      Char.isWhitespace |>.reverse with
  | [] => .error "string index out of range"
  | c :: rest =>
    let t := if c = '#' then rest else c :: rest
    if t.length ≠ 6 then
      .error ("input #" ++ String.mk t ++ " is not in #RRGGBB format")
    else
      match pyIntHex (t.take 2), pyIntHex ((t.drop 2).take 2), pyIntHex (t.drop 4) with
      | .ok r, .ok g, .ok b => .ok (r, g, b)
      | .error e, _, _ => .error e
      | _, .error e, _ => .error e
      | _, _, .error e => .error e

/-- Phases of `main`'s render branch that complete, in execution order.
Recording them makes the evaluation order of the source observable: the video
map is built first, the stream is analyzed, the plan is generated at line 318,
and only then is `hex_to_rgb(args.bg)` evaluated (while the arguments of the
`create_video` call at lines 319-326 are built). -/
inductive Phase where
  | videosMapped
  | analyzed
  | planGenerated
  | colorParsed
  | videoCreated
deriving DecidableEq, Repr

/-- The render branch of `main` (`args.track ≥ 1`, `args.test` false),
returning the ordered list of completed phases together with the outcome.
Failure points mirror the source: an out-of-range index into the track-name
list at the `print` of line 315 (IndexError), a missing track at
`map_events_by_tick(None)` (TypeError), a missing initial tempo at
`calculate_seconds_per_tick(None, ...)` inside `generate_track_plan`
(TypeError), and a bad colour string at `hex_to_rgb` (ValueError). -/
def main_render (pattern : List (List MidiEvent)) (resolution : ℚ) (track : Nat)
    (bg : String) (isfile : String → Bool) (video_dir : String) :
    List Phase × Except String (List (String × String) × List PlanRecord × (Int × Int × Int)) :=
  let video_map := map_videos isfile video_dir
  let am := analyze_midi pattern
  let tr := [Phase.videosMapped, Phase.analyzed]
  match (get_track_names pattern)[track - 1]? with
  | none => (tr, .error "IndexError: list index out of range")
  | some _ =>
    match grab_track_by_index pattern track with
    | none => (tr, .error "TypeError: NoneType object is not iterable")
    | some t =>
      match am.2 with
      | none => (tr, .error "TypeError: unsupported operand for NoneType")
      | some initial_tempo =>
        let plan := generate_track_plan (map_events_by_tick t) resolution am.1 initial_tempo
        let tr2 := tr ++ [Phase.planGenerated]
        match hex_to_rgb bg with
        | .error e => (tr2, .error e)
        | .ok rgb => (tr2 ++ [Phase.colorParsed, Phase.videoCreated], .ok (video_map, plan, rgb))

/-! ### Injectivity of the note-key format

`get_note_key` encodes a (note name, octave, channel) triple as the string
`"{note}{octave}-{channel}"`.  The note names of `NOTE_NAMES` and the decimal
digits of `Nat.repr` contain no dash, so the single dash splits the key
unambiguously; this is what makes the `notes_currently_playing` dict keyed by
such strings behave as a map keyed by triples. -/

/-! ### The open-note index invariant -/

/-- Well-formedness of the `notes_currently_playing` index: every registered
index points at an existing plan record whose dash-free note name and octave,
together with some channel, reproduce the registered key.  It holds for the
empty initial state and is preserved by every scheduling step. -/
def WFkey (plan : List PlanRecord) (playing : List (String × Nat)) : Prop :=
  ∀ k i, dlookup playing k = some i →
    ∃ r, plan[i]? = some r ∧ '-' ∉ r.note.data ∧
      ∃ c, k = get_note_key r.note r.octave c

/-! ### Emission order of plan records

Closing a record only revises its duration, so the tuple of all other fields
is stable; tracking that tuple through the run shows that the plan lists one
record per NoteOn event, in tick order, and in event order within a tick. -/

/-- The creation-time data of a record (everything except the two
duration-related mutable views; start_seconds is also fixed but depends on
the tempo state, so it is treated separately). -/
def recordSig (r : PlanRecord) : Nat × String × Nat × Nat :=
  (r.start_tick, r.note, r.octave, r.velocity)

/-- The NoteOn events of an event list, in order, as (pitch, channel,
velocity) triples. -/
def noteOnsOf (events : List MidiEvent) : List (Nat × Nat × Nat) :=
  events.filterMap fun e =>
    match e.kind with
    | .noteOn pitch channel velocity => some (pitch, channel, velocity)
    | _ => none

/-- The signature a NoteOn at tick t contributes to the plan. -/
def sigOfOn (t : Nat) (pcv : Nat × Nat × Nat) : Nat × String × Nat × Nat :=
  (t, (value_to_note pcv.1).1, (value_to_note pcv.1).2, pcv.2.2)

/-- The event list the scheduler sees at a tick. -/
def evsAt (event_map : List (Nat × List MidiEvent)) (t : Nat) : List MidiEvent :=
  (dlookup event_map t).getD []

/-- The record signatures the whole run should produce: for each tick in
order, the NoteOns of that tick in event order. -/
def planSigs (event_map : List (Nat × List MidiEvent)) (max_ticks : Nat) :
    List (Nat × String × Nat × Nat) :=
  (List.range max_ticks).flatMap fun t => (noteOnsOf (evsAt event_map t)).map (sigOfOn t)

/-! ### Reference formulations used to compare the code with the spec's words -/

/-- The lane grouping exactly as claim C4 words it: when not inside a group,
count the consecutive following records within the threshold of the leader;
a positive count k makes a group of size k+1 consuming exactly those k+1
records with lanes 0..k; otherwise the record is a solo annotated (0, 0),
and scanning resumes immediately after the consumed records. -/
def claimLaneGroups (threshold : Nat) : List PlanRecord → List (Nat × Nat)
  | [] => []
  | r :: rest =>
    let k := lookCount threshold r.start_tick rest
    if 0 < k then
      (List.range (k + 1)).map (fun j => (j, k + 1)) ++ claimLaneGroups threshold (rest.drop k)
    else
      (0, 0) :: claimLaneGroups threshold rest
termination_by l => l.length
decreasing_by
  · simp only [List.length_drop, List.length_cons]; omega
  · simp only [List.length_cons]; omega

/-- The lane grouping as the code actually behaves (the amended claim C4):
like `claimLaneGroups`, except that after a proper group of size k+1 the
single record immediately following the group (when one exists) is also
consumed, annotated as a solo (0, 0), without being scanned as a leader. -/
def amendedLaneGroups (threshold : Nat) : List PlanRecord → List (Nat × Nat)
  | [] => []
  | r :: rest =>
    if 0 < lookCount threshold r.start_tick rest then
      (List.range (lookCount threshold r.start_tick rest + 1)).map
          (fun j => (j, lookCount threshold r.start_tick rest + 1)) ++
        (if rest.length ≤ lookCount threshold r.start_tick rest then []
         else (0, 0) ::
           amendedLaneGroups threshold
             ((rest.drop (lookCount threshold r.start_tick rest)).tail))
    else
      (0, 0) :: amendedLaneGroups threshold rest
termination_by l => l.length
decreasing_by
  · simp only [List.length_tail, List.length_drop, List.length_cons]
    omega
  · simp only [List.length_cons]; omega

/-- The clip resolution exactly as claim C6 words it: exact match, then
octave-less match, then a search outward FROM the home octave 3 TOWARD the
requested octave (3, 2, ..., oct when the requested octave is below home;
3, 4, ..., oct when above), returning the first existing file. -/
def claimResolve (isfile : String → Bool) (video_dir note : String) (oct : Nat) :
    Option String :=
  let mid := 3
  if isfile (octPath video_dir note oct) then some (octPath video_dir note oct)
  else if isfile (video_dir ++ "/" ++ note ++ "." ++ "mp4") then
    some (video_dir ++ "/" ++ note ++ "." ++ "mp4")
  else if oct ≤ mid then
    firstExisting isfile (((List.range' oct (mid + 1 - oct)).reverse).map (octPath video_dir note))
  else
    firstExisting isfile ((List.range' mid (oct - mid + 1)).map (octPath video_dir note))

/-- The clip resolution as the code actually behaves (the amended claim C6),
written as one first-match scan over the full candidate list: the exact file,
the octave-less file, then the octaves FROM the requested octave TOWARD the
home octave 3 (oct, oct+1, ..., 3 when requested at or below home;
oct, oct-1, ..., 4 — home itself excluded — when above). -/
def amendedResolve (isfile : String → Bool) (video_dir note : String) (oct : Nat) :
    Option String :=
  let tertiary :=
    if oct ≤ 3 then List.range' oct (3 + 1 - oct)
    else (List.range' 4 (oct - 3)).reverse
  (octPath video_dir note oct ::
    (video_dir ++ "/" ++ note ++ "." ++ "mp4") ::
    tertiary.map (octPath video_dir note)).find? isfile

/-! ### The tempo coefficient in closed form -/

/-! ### The lane state machine in block form -/

/-! ### The clip map holds exactly the per-pitch resolutions

The 128 dict keys `"{note}{oct}"` are pairwise distinct (decoding a key
recovers the pitch value), so the final dict lookup returns exactly what the
iteration for that pitch computed. -/

/-- Decimal digits back to a number (proof-side helper). -/
def digitsToNat (l : List Char) : Nat :=
  l.foldl (fun a c => a * 10 + (c.toNat - '0'.toNat)) 0

/-- Left inverse of `noteKeyOf` on pitch values (proof-side helper). -/
def keyDecode (s : String) : Nat :=
  let nm := s.data.takeWhile (fun c => !c.isDigit)
  let ds := s.data.dropWhile (fun c => !c.isDigit)
  digitsToNat ds * 12 + NOTE_NAMES.findIdx (fun x => x == String.mk nm)

/-! ### The clip resolver in first-match form -/

/-- Decidable equality of Except values (used to state concrete run
outcomes). -/
instance {ε α : Type} [DecidableEq ε] [DecidableEq α] : DecidableEq (Except ε α) :=
  fun x y =>
    match x, y with
    | .error a, .error b =>
      if h : a = b then .isTrue (by rw [h]) else .isFalse (by simp [h])
    | .ok a, .ok b =>
      if h : a = b then .isTrue (by rw [h]) else .isFalse (by simp [h])
    | .error _, .ok _ => .isFalse (fun hh => Except.noConfusion hh)
    | .ok _, .error _ => .isFalse (fun hh => Except.noConfusion hh)

/-! ### Concrete streams and filesystems used in examples -/

/-- A track whose final event is a NoteOff at its final (cumulative) tick 1:
tempo and NoteOn at tick 0, NoteOff with delta 1. -/
def demoTrack : List MidiEvent :=
  [⟨0, .setTempo 120⟩, ⟨0, .noteOn 60 0 64⟩, ⟨1, .noteOff 60 0⟩]

/-- A two-track pattern: a name-bearing first track and `demoTrack`, so that
the render path with `--track 1` reaches plan generation. -/
def demoPattern : List (List MidiEvent) :=
  [[⟨0, .trackName "lead"⟩], demoTrack]

/-- Four records at ticks 0, 10, 20, 30; with threshold 15 the first two form
a group and, per the claim, the last two should form a second group. -/
def cexPlan : List PlanRecord :=
  [⟨0, 0, "C", 5, 0, 64⟩, ⟨10, 0, "D", 5, 0, 64⟩,
   ⟨20, 0, "E", 5, 0, 64⟩, ⟨30, 0, "F", 5, 0, 64⟩]

/-- The spec's own lane example: two records at ticks 100 and 140. -/
def pairPlan : List PlanRecord :=
  [⟨100, 0, "C", 5, 0, 64⟩, ⟨140, 0, "D", 5, 0, 64⟩]

/-- A clip directory holding exactly C2.mp4 and C3.mp4. -/
def cexFs : String → Bool := fun s => s = "videos/C2.mp4" || s = "videos/C3.mp4"

/-- A clip directory holding only the octave-less C.mp4. -/
def fsOnlyC : String → Bool := fun s => s = "videos/C.mp4"

/-! ### Lemmas and theorems -/

theorem dlookup_derase {κ α : Type} [DecidableEq κ] (d : List (κ × α)) (key k : κ) :
    dlookup (derase d key) k = if k = key then none else dlookup d k := by
  induction d with
  | nil => by_cases h : k = key <;> simp [derase, dlookup, h]
  | cons hd tl ih =>
    obtain ⟨k', v'⟩ := hd
    by_cases h1 : k' = key <;> by_cases h2 : k' = k
    · subst h2; subst h1
      simpa [derase, dlookup] using ih
    · have hk : ¬k = key := fun h => h2 (h1.trans h.symm)
      have hk2 : ¬key = k := fun h => h2 (h1.trans h)
      simp [derase, dlookup, h1, h2, hk, hk2, ih]
    · have hk : ¬k = key := fun h => h1 (h2.trans h)
      simp [derase, dlookup, h1, h2, hk]
    · simp [derase, dlookup, h1, h2, ih]

theorem dlookup_dinsert {κ α : Type} [DecidableEq κ] (d : List (κ × α)) (key k : κ) (v : α) :
    dlookup (dinsert d key v) k = if key = k then some v else dlookup d k := by
  by_cases h : key = k
  · simp [dinsert, dlookup, h]
  · have hk : ¬k = key := fun h' => h h'.symm
    simp [dinsert, dlookup, h, hk, dlookup_derase]

theorem digitChar_ne_dash (m : Nat) (h : m < 10) : Nat.digitChar m ≠ '-' := by
  have hall : ∀ i : Fin 10, Nat.digitChar i.val ≠ '-' := by decide
  exact hall ⟨m, h⟩

theorem toDigitsCore_no_dash :
    ∀ (fuel n : Nat) (acc : List Char), '-' ∉ acc → '-' ∉ Nat.toDigitsCore 10 fuel n acc := by
  intro fuel
  induction fuel with
  | zero => intro n acc hacc; simpa [Nat.toDigitsCore] using hacc
  | succ fuel ih =>
    intro n acc hacc
    simp only [Nat.toDigitsCore]
    split
    · intro hmem
      rcases List.mem_cons.mp hmem with h | h
      · exact digitChar_ne_dash _ (Nat.mod_lt _ (by norm_num)) h.symm
      · exact hacc h
    · refine ih _ _ ?_
      intro hmem
      rcases List.mem_cons.mp hmem with h | h
      · exact digitChar_ne_dash _ (Nat.mod_lt _ (by norm_num)) h.symm
      · exact hacc h

theorem repr_no_dash (n : Nat) : '-' ∉ (Nat.repr n).data := by
  show '-' ∉ Nat.toDigitsCore 10 (n + 1) n []
  exact toDigitsCore_no_dash _ _ _ (by simp)

theorem append_dash_inj :
    ∀ (a : List Char) (b c d : List Char), '-' ∉ a → '-' ∉ c →
      a ++ '-' :: b = c ++ '-' :: d → a = c ∧ b = d := by
  intro a
  induction a with
  | nil =>
    intro b c d _ hc h
    cases c with
    | nil => simpa using h
    | cons x xs =>
      simp only [List.nil_append, List.cons_append, List.cons.injEq] at h
      exact absurd (h.1 ▸ List.mem_cons_self x xs) (h.1 ▸ hc)
  | cons y ys ih =>
    intro b c d ha hc h
    cases c with
    | nil =>
      simp only [List.cons_append, List.nil_append, List.cons.injEq] at h
      exact absurd (h.1 ▸ List.mem_cons_self y ys) (h.1 ▸ ha)
    | cons x xs =>
      simp only [List.cons_append, List.cons.injEq] at h
      obtain ⟨hyx, h2⟩ := h
      have := ih b xs d (fun hm => ha (List.mem_cons_of_mem _ hm))
        (fun hm => hc (List.mem_cons_of_mem _ hm)) h2
      exact ⟨by rw [hyx, this.1], this.2⟩

theorem get_note_key_data (note : String) (octave channel : Nat) :
    (get_note_key note octave channel).data =
      (note.data ++ (Nat.repr octave).data) ++ '-' :: (Nat.repr channel).data := by
  simp [get_note_key, String.data_append]

/-- The key equation that makes the retrigger close hit the record registered
under the key: if the stored key of a record equals the key of the incoming
note (any channels), then re-keying the record's name and octave with the
incoming channel reproduces the incoming key. -/
theorem get_note_key_cancel (n₁ n₂ : String) (o₁ o₂ c₁ c₂ : Nat)
    (h₁ : '-' ∉ n₁.data) (h₂ : '-' ∉ n₂.data)
    (h : get_note_key n₁ o₁ c₁ = get_note_key n₂ o₂ c₂) (c : Nat) :
    get_note_key n₁ o₁ c = get_note_key n₂ o₂ c := by
  have hdata := congrArg String.data h
  rw [get_note_key_data, get_note_key_data] at hdata
  have hpre₁ : '-' ∉ n₁.data ++ (Nat.repr o₁).data := by
    intro hm
    rcases List.mem_append.mp hm with hm | hm
    · exact h₁ hm
    · exact repr_no_dash o₁ hm
  have hpre₂ : '-' ∉ n₂.data ++ (Nat.repr o₂).data := by
    intro hm
    rcases List.mem_append.mp hm with hm | hm
    · exact h₂ hm
    · exact repr_no_dash o₂ hm
  have := append_dash_inj _ _ _ _ hpre₁ hpre₂ hdata
  apply String.ext
  rw [get_note_key_data, get_note_key_data, this.1]

/-- Note names produced by `value_to_note` contain no dash. -/
theorem value_to_note_no_dash (value : Nat) : '-' ∉ ((value_to_note value).1).data := by
  have h : value % 12 < 12 := Nat.mod_lt _ (by norm_num)
  have : ∀ i : Fin 12, '-' ∉ (NOTE_NAMES.getD i.val "").data := by decide
  exact this ⟨value % 12, h⟩

/-- Closing an open note: the registered record, and only it, gets its
duration set to current seconds minus its start seconds, and the key is
removed from the index. -/
theorem turn_off_note_close (note : String) (octave channel : Nat)
    (seconds_per_tick : ℚ) (current_tick : Nat) (plan : List PlanRecord)
    (playing : List (String × Nat)) (i : Nat) (r : PlanRecord)
    (hlook : dlookup playing (get_note_key note octave channel) = some i)
    (hr : plan[i]? = some r) :
    turn_off_note note octave channel seconds_per_tick current_tick plan playing =
      (plan.set i { r with duration := seconds_per_tick * current_tick - r.start_seconds },
       derase playing (get_note_key note octave channel)) := by
  simp [turn_off_note, hlook, hr]

/-- A NoteOff whose key has no open record leaves both the plan and the index
unchanged. -/
theorem turn_off_note_noop (note : String) (octave channel : Nat)
    (seconds_per_tick : ℚ) (current_tick : Nat) (plan : List PlanRecord)
    (playing : List (String × Nat))
    (hlook : dlookup playing (get_note_key note octave channel) = none) :
    turn_off_note note octave channel seconds_per_tick current_tick plan playing =
      (plan, playing) := by
  simp [turn_off_note, hlook]

/-- Retrigger: a NoteOn whose key is already open first closes exactly the
registered record (via the key reconstructed from the stored record's fields),
then appends the fresh open record and points the key at it. -/
theorem turn_on_note_retrigger (note : String) (octave channel : Nat)
    (seconds_per_tick : ℚ) (current_tick : Nat) (plan : List PlanRecord)
    (playing : List (String × Nat)) (velocity : Nat) (i : Nat)
    (hwf : WFkey plan playing) (hdash : '-' ∉ note.data)
    (hlook : dlookup playing (get_note_key note octave channel) = some i) :
    ∃ r, plan[i]? = some r ∧
      turn_on_note note octave channel seconds_per_tick current_tick plan playing velocity =
        ((plan.set i { r with duration := seconds_per_tick * current_tick - r.start_seconds })
            ++ [⟨current_tick, seconds_per_tick * current_tick, note, octave, 0, velocity⟩],
         dinsert (derase playing (get_note_key note octave channel))
           (get_note_key note octave channel) plan.length) := by
  obtain ⟨r, hr, hrdash, c, hkey⟩ := hwf _ _ hlook
  refine ⟨r, hr, ?_⟩
  have hkey' : get_note_key r.note r.octave channel = get_note_key note octave channel :=
    get_note_key_cancel r.note note r.octave octave c channel hrdash hdash hkey.symm channel
  have hclose := turn_off_note_close r.note r.octave channel seconds_per_tick current_tick
    plan playing i r (by rw [hkey']; exact hlook) hr
  rw [hkey'] at hclose
  simp only [turn_on_note, hlook, hr, hclose]
  have hlen : (plan.set i
      { r with duration := seconds_per_tick * current_tick - r.start_seconds }).length
        = plan.length := List.length_set plan _ _
  simp [hlen]

/-- A NoteOn on a free key simply appends the fresh open record and points
the key at it. -/
theorem turn_on_note_fresh (note : String) (octave channel : Nat)
    (seconds_per_tick : ℚ) (current_tick : Nat) (plan : List PlanRecord)
    (playing : List (String × Nat)) (velocity : Nat)
    (hlook : dlookup playing (get_note_key note octave channel) = none) :
    turn_on_note note octave channel seconds_per_tick current_tick plan playing velocity =
      (plan ++ [⟨current_tick, seconds_per_tick * current_tick, note, octave, 0, velocity⟩],
       dinsert playing (get_note_key note octave channel) plan.length) := by
  simp [turn_on_note, hlook]

theorem WFkey_nil : WFkey [] [] := by
  intro k i h
  simp [dlookup] at h

theorem WFkey_turn_off (note : String) (octave channel : Nat)
    (seconds_per_tick : ℚ) (current_tick : Nat) (plan : List PlanRecord)
    (playing : List (String × Nat)) (hwf : WFkey plan playing) :
    WFkey (turn_off_note note octave channel seconds_per_tick current_tick plan playing).1
      (turn_off_note note octave channel seconds_per_tick current_tick plan playing).2 := by
  rcases hcase : dlookup playing (get_note_key note octave channel) with _ | i
  · rw [turn_off_note_noop _ _ _ _ _ _ _ hcase]; exact hwf
  · obtain ⟨r, hr, hrdash, c, hkey⟩ := hwf _ _ hcase
    rw [turn_off_note_close _ _ _ _ _ _ _ _ _ hcase hr]
    intro k' i' hlook'
    rw [dlookup_derase] at hlook'
    by_cases hk : k' = get_note_key note octave channel
    · simp [hk] at hlook'
    · rw [if_neg hk] at hlook'
      obtain ⟨r', hr', hrdash', c', hkey'⟩ := hwf _ _ hlook'
      by_cases hi : i' = i
      · subst hi
        have : r' = r := by rw [hr] at hr'; exact (Option.some.injEq _ _).mp hr'.symm
        subst this
        refine ⟨{ r' with duration := seconds_per_tick * current_tick - r'.start_seconds },
          ?_, hrdash', c', hkey'⟩
        have hlt : i' < plan.length := by
          by_contra hge
          rw [List.getElem?_eq_none (by omega)] at hr'
          exact Option.noConfusion hr'
        exact List.getElem?_set_self hlt
      · exact ⟨r', by rw [List.getElem?_set_ne (fun h => hi h.symm)]; exact hr',
          hrdash', c', hkey'⟩

theorem WFkey_turn_on (note : String) (octave channel : Nat)
    (seconds_per_tick : ℚ) (current_tick : Nat) (plan : List PlanRecord)
    (playing : List (String × Nat)) (velocity : Nat)
    (hwf : WFkey plan playing) (hdash : '-' ∉ note.data) :
    WFkey (turn_on_note note octave channel seconds_per_tick current_tick plan playing velocity).1
      (turn_on_note note octave channel seconds_per_tick current_tick plan playing velocity).2 := by
  have key_step : ∀ (plan' : List PlanRecord) (playing' : List (String × Nat)),
      WFkey plan' playing' →
      WFkey (plan' ++ [⟨current_tick, seconds_per_tick * current_tick, note, octave, 0, velocity⟩])
        (dinsert playing' (get_note_key note octave channel) plan'.length) := by
    intro plan' playing' hwf' k' i' hlook'
    rw [dlookup_dinsert] at hlook'
    by_cases hk : get_note_key note octave channel = k'
    · rw [if_pos hk] at hlook'
      obtain rfl : plan'.length = i' := (Option.some.injEq _ _).mp hlook'
      exact ⟨_, List.getElem?_concat_length plan' _, hdash, channel, hk.symm⟩
    · rw [if_neg hk] at hlook'
      obtain ⟨r', hr', hrdash', c', hkey'⟩ := hwf' _ _ hlook'
      have hlt : i' < plan'.length := by
        by_contra hge
        rw [List.getElem?_eq_none (by omega)] at hr'
        exact Option.noConfusion hr'
      exact ⟨r', by rw [List.getElem?_append_left hlt]; exact hr', hrdash', c', hkey'⟩
  rcases hcase : dlookup playing (get_note_key note octave channel) with _ | i
  · rw [turn_on_note_fresh _ _ _ _ _ _ _ _ hcase]
    exact key_step plan playing hwf
  · obtain ⟨r, hr, hretr⟩ := turn_on_note_retrigger note octave channel seconds_per_tick
      current_tick plan playing velocity i hwf hdash hcase
    rw [hretr]
    have hwfclosed : WFkey
        (plan.set i { r with duration := seconds_per_tick * current_tick - r.start_seconds })
        (derase playing (get_note_key note octave channel)) := by
      have := WFkey_turn_off note octave channel seconds_per_tick current_tick plan playing hwf
      rwa [turn_off_note_close _ _ _ _ _ _ _ _ _ hcase hr] at this
    have hlen : (plan.set i
        { r with duration := seconds_per_tick * current_tick - r.start_seconds }).length
          = plan.length := List.length_set plan _ _
    have := key_step _ _ hwfclosed
    rwa [hlen] at this

/-- Every scheduling step (any event kind) preserves the index invariant. -/
theorem WFkey_processEvent (resolution : ℚ) (current_tick : Nat) (s : SchedState)
    (event : MidiEvent) (hwf : WFkey s.plan s.playing) :
    WFkey (processEvent resolution current_tick s event).plan
      (processEvent resolution current_tick s event).playing := by
  rcases event with ⟨t, k⟩
  cases k with
  | setTempo bpm => exact hwf
  | noteOn pitch channel velocity =>
    simpa [processEvent] using
      WFkey_turn_on (value_to_note pitch).1 (value_to_note pitch).2 channel s.spt
        current_tick s.plan s.playing velocity hwf (value_to_note_no_dash pitch)
  | noteOff pitch channel =>
    simpa [processEvent] using
      WFkey_turn_off (value_to_note pitch).1 (value_to_note pitch).2 channel s.spt
        current_tick s.plan s.playing hwf
  | trackName text => exact hwf
  | otherEvent => exact hwf

theorem map_recordSig_set (l : List PlanRecord) (i : Nat) (r : PlanRecord) (d : ℚ)
    (hr : l[i]? = some r) :
    (l.set i { r with duration := d }).map recordSig = l.map recordSig := by
  rw [List.map_set]
  have : recordSig { r with duration := d } = recordSig r := rfl
  rw [this]
  have hi : (l.map recordSig)[i]? = some (recordSig r) := by
    rw [List.getElem?_map, hr]; rfl
  have hlt : i < (l.map recordSig).length := by
    by_contra hge
    rw [List.getElem?_eq_none (by omega)] at hi
    exact Option.noConfusion hi
  have := List.getElem?_eq_getElem hlt
  rw [this] at hi
  rw [(Option.some.injEq _ _).mp hi.symm]
  apply List.ext_getElem?
  intro n
  by_cases hn : n = i
  · subst hn; rw [List.getElem?_set_self hlt, List.getElem?_eq_getElem hlt]
  · rw [List.getElem?_set_ne (fun hh => hn hh.symm)]

theorem map_recordSig_turn_off (note : String) (octave channel : Nat)
    (seconds_per_tick : ℚ) (current_tick : Nat) (plan : List PlanRecord)
    (playing : List (String × Nat)) :
    (turn_off_note note octave channel seconds_per_tick current_tick plan playing).1.map
      recordSig = plan.map recordSig := by
  rcases hcase : dlookup playing (get_note_key note octave channel) with _ | i
  · simp [turn_off_note, hcase]
  · rcases hr : plan[i]? with _ | r
    · simp [turn_off_note, hcase, hr]
    · rw [turn_off_note_close _ _ _ _ _ _ _ _ _ hcase hr]
      exact map_recordSig_set plan i r _ hr

theorem map_recordSig_turn_on (note : String) (octave channel : Nat)
    (seconds_per_tick : ℚ) (current_tick : Nat) (plan : List PlanRecord)
    (playing : List (String × Nat)) (velocity : Nat) :
    (turn_on_note note octave channel seconds_per_tick current_tick plan playing
        velocity).1.map recordSig =
      plan.map recordSig ++ [(current_tick, note, octave, velocity)] := by
  rcases hcase : dlookup playing (get_note_key note octave channel) with _ | i
  · simp [turn_on_note, hcase, recordSig]
  · rcases hr : plan[i]? with _ | r
    · simp [turn_on_note, hcase, hr, recordSig]
    · simp only [turn_on_note, hcase, hr, List.map_append]
      rw [map_recordSig_turn_off]
      simp [recordSig]

theorem map_recordSig_processEvent (resolution : ℚ) (current_tick : Nat)
    (s : SchedState) (event : MidiEvent) :
    (processEvent resolution current_tick s event).plan.map recordSig =
      s.plan.map recordSig ++ (noteOnsOf [event]).map (sigOfOn current_tick) := by
  rcases event with ⟨t, k⟩
  cases k with
  | setTempo bpm => simp [processEvent, noteOnsOf]
  | noteOn pitch channel velocity =>
    simpa [processEvent, noteOnsOf, sigOfOn] using
      map_recordSig_turn_on (value_to_note pitch).1 (value_to_note pitch).2 channel
        s.spt current_tick s.plan s.playing velocity
  | noteOff pitch channel =>
    simpa [processEvent, noteOnsOf] using
      map_recordSig_turn_off (value_to_note pitch).1 (value_to_note pitch).2 channel
        s.spt current_tick s.plan s.playing
  | trackName text => simp [processEvent, noteOnsOf]
  | otherEvent => simp [processEvent, noteOnsOf]

theorem map_recordSig_foldl (resolution : ℚ) (current_tick : Nat)
    (events : List MidiEvent) :
    ∀ s : SchedState,
      (events.foldl (processEvent resolution current_tick) s).plan.map recordSig =
        s.plan.map recordSig ++ (noteOnsOf events).map (sigOfOn current_tick) := by
  induction events with
  | nil => intro s; simp [noteOnsOf]
  | cons e rest ih =>
    intro s
    have hone := map_recordSig_processEvent resolution current_tick s e
    have hsplit : noteOnsOf (e :: rest) = noteOnsOf [e] ++ noteOnsOf rest := by
      show noteOnsOf ([e] ++ rest) = noteOnsOf [e] ++ noteOnsOf rest
      exact List.filterMap_append [e] rest _
    rw [List.foldl_cons, ih, hone, hsplit, List.map_append, List.append_assoc]

theorem map_recordSig_processTick (event_map : List (Nat × List MidiEvent))
    (resolution : ℚ) (s : SchedState) (t : Nat) :
    (processTick event_map resolution s t).plan.map recordSig =
      s.plan.map recordSig ++ (noteOnsOf (evsAt event_map t)).map (sigOfOn t) := by
  unfold processTick evsAt
  rcases hcase : dlookup event_map t with _ | events
  · simp [noteOnsOf]
  · simpa using map_recordSig_foldl resolution t events s

theorem map_recordSig_runSched (event_map : List (Nat × List MidiEvent))
    (resolution : ℚ) (initial_tempo : ℚ) :
    ∀ max_ticks : Nat,
      (runSched event_map resolution max_ticks initial_tempo).plan.map recordSig =
        planSigs event_map max_ticks := by
  intro max_ticks
  induction max_ticks with
  | zero => simp [runSched, planSigs]
  | succ mt ih =>
    unfold runSched planSigs at *
    rw [List.range_succ, List.foldl_append, List.flatMap_append]
    simp only [List.foldl_cons, List.foldl_nil, List.flatMap_cons, List.flatMap_nil,
      List.append_nil]
    rw [map_recordSig_processTick, ih]

/-- The chain of divisions in `calculate_seconds_per_tick` equals
`60 / (tempo * resolution)` (also in the degenerate zero cases, where both
sides are 0 under rational division by zero). -/
theorem calculate_seconds_per_tick_eq (tempo resolution : ℚ) :
    calculate_seconds_per_tick tempo resolution = 60 / (tempo * resolution) := by
  unfold calculate_seconds_per_tick
  rcases eq_or_ne tempo 0 with h | h
  · simp [h]
  · rcases eq_or_ne resolution 0 with h2 | h2
    · simp [h2]
    · field_simp; ring

theorem lookCount_le (threshold t : Nat) :
    ∀ l : List PlanRecord, lookCount threshold t l ≤ l.length := by
  intro l
  induction l with
  | nil => simp [lookCount]
  | cons p rest ih =>
    simp only [lookCount, List.length_cons]
    split
    · omega
    · omega

/-- Unwinding the countdown the leader leaves behind: with `k` pending
members the machine emits lanes `gs-k ... gs-1`, then consumes one further
record (when present) as a forced solo before resuming in the idle state. -/
theorem laneGo_countdown (threshold : Nat) :
    ∀ (k : Nat) (rest : List PlanRecord) (gs : Nat), k < gs → k ≤ rest.length →
      laneGo threshold rest (k + 1) gs =
        (List.range' (gs - k) k).map (fun j => (j, gs)) ++
          (if rest.length ≤ k then []
           else (0, 0) :: laneGo threshold ((rest.drop k).tail) 0 0) := by
  intro k
  induction k with
  | zero =>
    intro rest gs _ _
    cases rest with
    | nil => simp [laneGo]
    | cons r rest' => simp [laneGo]
  | succ k ih =>
    intro rest gs hlt hle
    cases rest with
    | nil => simp at hle
    | cons r rest' =>
      have hstep : laneGo threshold (r :: rest') (k + 1 + 1) gs =
          (gs - (k + 1), gs) :: laneGo threshold rest' (k + 1) gs := by
        simp [laneGo]
      rw [hstep, ih rest' gs (by omega) (by simpa using hle)]
      have hrange : List.range' (gs - (k + 1)) (k + 1) =
          (gs - (k + 1)) :: List.range' (gs - k) k := by
        have : gs - (k + 1) + 1 = gs - k := by omega
        rw [List.range'_succ, this]
      rw [hrange]
      have hcond : (rest'.length ≤ k) ↔ ((r :: rest').length ≤ k + 1) := by
        simp only [List.length_cons]
        omega
      by_cases hc : rest'.length ≤ k
      · rw [if_pos hc, if_pos (hcond.mp hc)]
        simp
      · rw [if_neg hc, if_neg (fun h => hc (hcond.mpr h))]
        simp [List.drop_succ_cons]

/-- The lane annotations of `create_video` coincide with the block-structured
description `amendedLaneGroups`. -/
theorem laneGo_eq_amended (threshold : Nat) :
    ∀ (n : Nat) (l : List PlanRecord), l.length ≤ n →
      laneGo threshold l 0 0 = amendedLaneGroups threshold l := by
  intro n
  induction n with
  | zero =>
    intro l hl
    have : l = [] := List.eq_nil_of_length_eq_zero (by omega)
    subst this
    simp [laneGo, amendedLaneGroups]
  | succ n ih =>
    intro l hl
    cases l with
    | nil => simp [laneGo, amendedLaneGroups]
    | cons r rest =>
      by_cases hk : 0 < lookCount threshold r.start_tick rest
      · have hkle := lookCount_le threshold r.start_tick rest
        have hlhs : laneGo threshold (r :: rest) 0 0 =
            (0, lookCount threshold r.start_tick rest + 1) ::
              laneGo threshold rest (lookCount threshold r.start_tick rest + 1)
                (lookCount threshold r.start_tick rest + 1) := by
          simp [laneGo, hk]
        rw [hlhs, laneGo_countdown threshold (lookCount threshold r.start_tick rest) rest
          (lookCount threshold r.start_tick rest + 1) (by omega) hkle]
        rw [amendedLaneGroups, if_pos hk]
        have hrange : List.range (lookCount threshold r.start_tick rest + 1) =
            0 :: List.range' 1 (lookCount threshold r.start_tick rest) := by
          rw [List.range_eq_range', List.range'_succ]
        have hsub : lookCount threshold r.start_tick rest + 1 -
            lookCount threshold r.start_tick rest = 1 := by omega
        rw [hrange, hsub]
        simp only [List.map_cons, List.cons_append, List.nil_append]
        by_cases hc : rest.length ≤ lookCount threshold r.start_tick rest
        · rw [if_pos hc, if_pos hc]
        · rw [if_neg hc, if_neg hc]
          have : ((rest.drop (lookCount threshold r.start_tick rest)).tail).length ≤ n := by
            simp only [List.length_tail, List.length_drop]
            simp only [List.length_cons] at hl
            omega
          rw [ih _ this]
      · have hlhs : laneGo threshold (r :: rest) 0 0 =
            (0, 0) :: laneGo threshold rest 0 0 := by
          simp [laneGo, hk]
        rw [hlhs, amendedLaneGroups, if_neg hk]
        have : rest.length ≤ n := by
          simp only [List.length_cons] at hl
          omega
        rw [ih rest this]

theorem keyDecode_noteKeyOf : ∀ i : Fin 128, keyDecode (noteKeyOf i.val) = i.val := by
  decide

theorem noteKeyOf_injOn (a b : Nat) (ha : a < 128) (hb : b < 128)
    (h : noteKeyOf a = noteKeyOf b) : a = b := by
  have h1 := keyDecode_noteKeyOf ⟨a, ha⟩
  have h2 := keyDecode_noteKeyOf ⟨b, hb⟩
  simp only at h1 h2
  rw [← h1, ← h2, h]

theorem dlookup_mapVideosStep_foldl_notin (isfile : String → Bool) (video_dir : String) :
    ∀ (l : List Nat) (vm : List (String × String)) (k : String),
      (∀ a ∈ l, noteKeyOf a ≠ k) →
      dlookup (l.foldl (mapVideosStep isfile video_dir) vm) k = dlookup vm k := by
  intro l
  induction l with
  | nil => intro vm k _; rfl
  | cons a l' ih =>
    intro vm k hk
    rw [List.foldl_cons, ih _ _ (fun b hb => hk b (List.mem_cons_of_mem a hb))]
    unfold mapVideosStep
    rcases findPath isfile video_dir (value_to_note a).1 (value_to_note a).2 with _ | path
    · rfl
    · rw [dlookup_dinsert, if_neg (hk a (List.mem_cons_self a l'))]

theorem dlookup_mapVideosStep_foldl (isfile : String → Bool) (video_dir : String) :
    ∀ (l : List Nat) (vm : List (String × String)) (m : Nat),
      m ∈ l → l.Nodup →
      (∀ a ∈ l, noteKeyOf a = noteKeyOf m → a = m) →
      dlookup vm (noteKeyOf m) = none →
      dlookup (l.foldl (mapVideosStep isfile video_dir) vm) (noteKeyOf m) =
        findPath isfile video_dir (value_to_note m).1 (value_to_note m).2 := by
  intro l
  induction l with
  | nil => intro vm m hm; simp at hm
  | cons a l' ih =>
    intro vm m hm hnd hinj hvm
    rcases List.mem_cons.mp hm with rfl | hm'
    · have hnotin : m ∉ l' := (List.nodup_cons.mp hnd).1
      have hother : ∀ b ∈ l', noteKeyOf b ≠ noteKeyOf m := by
        intro b hb heq
        exact hnotin ((hinj b (List.mem_cons_of_mem m hb) heq) ▸ hb)
      rw [List.foldl_cons, dlookup_mapVideosStep_foldl_notin isfile video_dir l' _ _ hother]
      unfold mapVideosStep
      rcases hfp : findPath isfile video_dir (value_to_note m).1 (value_to_note m).2
        with _ | path
      · exact hvm
      · rw [dlookup_dinsert, if_pos rfl]
    · have hne : noteKeyOf a ≠ noteKeyOf m := by
        intro heq
        have : a = m := hinj a (List.mem_cons_self a l') heq
        exact (List.nodup_cons.mp hnd).1 (this ▸ hm')
      rw [List.foldl_cons]
      refine ih _ m hm' (List.nodup_cons.mp hnd).2
        (fun b hb => hinj b (List.mem_cons_of_mem a hb)) ?_
      unfold mapVideosStep
      rcases findPath isfile video_dir (value_to_note a).1 (value_to_note a).2 with _ | path
      · exact hvm
      · rw [dlookup_dinsert, if_neg hne]
        exact hvm

/-- The dict built by `map_videos` maps each pitch's note name to exactly the
path its own loop iteration resolved. -/
theorem map_videos_lookup (isfile : String → Bool) (video_dir : String) (n : Nat)
    (hn : n < 128) :
    dlookup (map_videos isfile video_dir) (noteKeyOf n) =
      findPath isfile video_dir (value_to_note n).1 (value_to_note n).2 := by
  unfold map_videos
  exact dlookup_mapVideosStep_foldl isfile video_dir (List.range 128) [] n
    (List.mem_range.mpr hn) (List.nodup_range 128)
    (fun a ha => noteKeyOf_injOn a n (List.mem_range.mp ha) hn)
    rfl

theorem findPath_eq_amended (isfile : String → Bool) (video_dir note : String)
    (oct : Nat) :
    findPath isfile video_dir note oct = amendedResolve isfile video_dir note oct := by
  unfold findPath amendedResolve firstExisting
  by_cases h1 : isfile (octPath video_dir note oct)
  · simp only [h1, if_pos, List.find?_cons_of_pos _ h1]
  · rw [List.find?_cons_of_neg _ (by simpa using h1), if_neg (by simpa using h1)]
    by_cases h2 : isfile (video_dir ++ "/" ++ note ++ "." ++ "mp4")
    · simp only [h2, if_pos, List.find?_cons_of_pos _ h2]
    · rw [List.find?_cons_of_neg _ (by simpa using h2), if_neg (by simpa using h2)]
      by_cases h3 : oct ≤ 3
      · rw [if_pos h3, if_pos h3]
      · rw [if_neg h3, if_neg h3]

/-! ### Record-field stability helpers -/

/-- Equality of all creation-time fields (everything but duration). -/
def FieldsEq (r' r : PlanRecord) : Prop :=
  r'.start_tick = r.start_tick ∧ r'.start_seconds = r.start_seconds ∧
    r'.note = r.note ∧ r'.octave = r.octave ∧ r'.velocity = r.velocity

theorem fieldsEq_turn_off (note : String) (octave channel : Nat)
    (seconds_per_tick : ℚ) (current_tick : Nat) (plan : List PlanRecord)
    (playing : List (String × Nat)) (i : Nat) (r : PlanRecord)
    (hr : plan[i]? = some r) :
    ∃ r', (turn_off_note note octave channel seconds_per_tick current_tick plan
        playing).1[i]? = some r' ∧ FieldsEq r' r := by
  rcases hcase : dlookup playing (get_note_key note octave channel) with _ | j
  · rw [turn_off_note_noop _ _ _ _ _ _ _ hcase]
    exact ⟨r, hr, rfl, rfl, rfl, rfl, rfl⟩
  · rcases hj : plan[j]? with _ | rj
    · refine ⟨r, ?_, rfl, rfl, rfl, rfl, rfl⟩
      simp [turn_off_note, hcase, hj, hr]
    · rw [turn_off_note_close _ _ _ _ _ _ _ _ _ hcase hj]
      by_cases hij : i = j
      · subst hij
        have : rj = r := by rw [hr] at hj; exact ((Option.some.injEq _ _).mp hj).symm
        subst this
        have hlt : i < plan.length := by
          by_contra hge
          rw [List.getElem?_eq_none (by omega)] at hr
          exact Option.noConfusion hr
        exact ⟨_, List.getElem?_set_self hlt, rfl, rfl, rfl, rfl, rfl⟩
      · rw [List.getElem?_set_ne (fun h => hij h.symm)]
        exact ⟨r, hr, rfl, rfl, rfl, rfl, rfl⟩

theorem fieldsEq_turn_on (note : String) (octave channel : Nat)
    (seconds_per_tick : ℚ) (current_tick : Nat) (plan : List PlanRecord)
    (playing : List (String × Nat)) (velocity : Nat) (i : Nat) (r : PlanRecord)
    (hr : plan[i]? = some r) :
    ∃ r', (turn_on_note note octave channel seconds_per_tick current_tick plan
        playing velocity).1[i]? = some r' ∧ FieldsEq r' r := by
  have hlt : i < plan.length := by
    by_contra hge
    rw [List.getElem?_eq_none (by omega)] at hr
    exact Option.noConfusion hr
  unfold turn_on_note
  rcases hcase : dlookup playing (get_note_key note octave channel) with _ | j
  · simp only [hcase]
    rw [List.getElem?_append_left (by simpa using hlt)]
    exact ⟨r, hr, rfl, rfl, rfl, rfl, rfl⟩
  · rcases hj : plan[j]? with _ | rj
    · simp only [hcase, hj]
      rw [List.getElem?_append_left (by simpa using hlt)]
      exact ⟨r, hr, rfl, rfl, rfl, rfl, rfl⟩
    · simp only [hcase, hj]
      obtain ⟨r', hr', hfe⟩ := fieldsEq_turn_off rj.note rj.octave channel
        seconds_per_tick current_tick plan playing i r hr
      have hlen : (turn_off_note rj.note rj.octave channel seconds_per_tick
          current_tick plan playing).1.length = plan.length := by
        rcases hc2 : dlookup playing (get_note_key rj.note rj.octave channel) with _ | j2
        · rw [turn_off_note_noop _ _ _ _ _ _ _ hc2]
        · rcases hj2 : plan[j2]? with _ | rj2
          · simp [turn_off_note, hc2, hj2]
          · rw [turn_off_note_close _ _ _ _ _ _ _ _ _ hc2 hj2]
            exact List.length_set plan _ _
      rw [List.getElem?_append_left (by omega)]
      exact ⟨r', hr', hfe⟩

/-- In the untracked case (no key of the open-note index points at slot i),
a single scheduling step leaves slot i itself untouched and still untracked. -/
theorem closed_slot_turn_off (note : String) (octave channel : Nat)
    (seconds_per_tick : ℚ) (current_tick : Nat) (plan : List PlanRecord)
    (playing : List (String × Nat)) (i : Nat)
    (hfree : ∀ k, dlookup playing k ≠ some i) :
    (turn_off_note note octave channel seconds_per_tick current_tick plan
        playing).1[i]? = plan[i]? ∧
    (∀ k, dlookup (turn_off_note note octave channel seconds_per_tick current_tick
        plan playing).2 k ≠ some i) := by
  rcases hcase : dlookup playing (get_note_key note octave channel) with _ | j
  · rw [turn_off_note_noop _ _ _ _ _ _ _ hcase]
    exact ⟨rfl, hfree⟩
  · rcases hj : plan[j]? with _ | rj
    · refine ⟨by simp [turn_off_note, hcase, hj], ?_⟩
      intro k
      simpa [turn_off_note, hcase, hj] using hfree k
    · rw [turn_off_note_close _ _ _ _ _ _ _ _ _ hcase hj]
      have hij : j ≠ i := fun h => hfree _ (h ▸ hcase)
      refine ⟨List.getElem?_set_ne hij, ?_⟩
      intro k h
      rw [dlookup_derase] at h
      by_cases hk : k = get_note_key note octave channel
      · rw [if_pos hk] at h; exact Option.noConfusion h
      · rw [if_neg hk] at h; exact hfree k h

theorem closed_slot_turn_on (note : String) (octave channel : Nat)
    (seconds_per_tick : ℚ) (current_tick : Nat) (plan : List PlanRecord)
    (playing : List (String × Nat)) (velocity : Nat) (i : Nat)
    (hi : i < plan.length)
    (hfree : ∀ k, dlookup playing k ≠ some i) :
    (turn_on_note note octave channel seconds_per_tick current_tick plan playing
        velocity).1[i]? = plan[i]? ∧
    (∀ k, dlookup (turn_on_note note octave channel seconds_per_tick current_tick
        plan playing velocity).2 k ≠ some i) := by
  unfold turn_on_note
  rcases hcase : dlookup playing (get_note_key note octave channel) with _ | j
  · simp only [hcase]
    refine ⟨by rw [List.getElem?_append_left (by simpa using hi)], ?_⟩
    intro k h
    rw [dlookup_dinsert] at h
    by_cases hk : get_note_key note octave channel = k
    · rw [if_pos hk] at h
      have := (Option.some.injEq _ _).mp h
      simp only [List.length_append, List.length_cons, List.length_nil] at this
      omega
    · rw [if_neg hk] at h; exact hfree k h
  · rcases hj : plan[j]? with _ | rj
    · simp only [hcase, hj]
      refine ⟨by rw [List.getElem?_append_left (by simpa using hi)], ?_⟩
      intro k h
      rw [dlookup_dinsert] at h
      by_cases hk : get_note_key note octave channel = k
      · rw [if_pos hk] at h
        have := (Option.some.injEq _ _).mp h
        simp only [List.length_append, List.length_cons, List.length_nil] at this
        omega
      · rw [if_neg hk] at h; exact hfree k h
    · simp only [hcase, hj]
      obtain ⟨hplan, hplay⟩ := closed_slot_turn_off rj.note rj.octave channel
        seconds_per_tick current_tick plan playing i hfree
      have hlen : (turn_off_note rj.note rj.octave channel seconds_per_tick
          current_tick plan playing).1.length = plan.length := by
        rcases hc2 : dlookup playing (get_note_key rj.note rj.octave channel) with _ | j2
        · rw [turn_off_note_noop _ _ _ _ _ _ _ hc2]
        · rcases hj2 : plan[j2]? with _ | rj2
          · simp [turn_off_note, hc2, hj2]
          · rw [turn_off_note_close _ _ _ _ _ _ _ _ _ hc2 hj2]
            exact List.length_set plan _ _
      refine ⟨by rw [List.getElem?_append_left (by omega), hplan], ?_⟩
      intro k h
      rw [dlookup_dinsert] at h
      by_cases hk : get_note_key note octave channel = k
      · rw [if_pos hk] at h
        have := (Option.some.injEq _ _).mp h
        simp only [List.length_append, List.length_cons, List.length_nil] at this
        omega
      · rw [if_neg hk] at h; exact hplay k h

/-! ### The claims -/

/-- C1: at every instant during scheduling at most one open PlanRecord exists
per NoteKey; a NoteOn arriving while the same NoteKey already has an open
record closes exactly one prior record (setting its duration to current
seconds minus its start seconds) before appending a new open record.  Part 1:
the open-note index invariant holds after every scheduling step.  Part 2: the
retrigger rewrites exactly the registered record in place (all other entries
of the plan kept as they are), appends the fresh open record, and re-points
the key — which, being a key of a map, can hold only one open record. -/
theorem C1_retrigger_law :
    (∀ (resolution : ℚ) (current_tick : Nat) (s : SchedState) (event : MidiEvent),
       WFkey s.plan s.playing →
       WFkey (processEvent resolution current_tick s event).plan
         (processEvent resolution current_tick s event).playing)
    ∧
    (∀ (note : String) (octave channel : Nat) (seconds_per_tick : ℚ)
       (current_tick velocity : Nat) (plan : List PlanRecord)
       (playing : List (String × Nat)) (i : Nat),
       WFkey plan playing → '-' ∉ note.data →
       dlookup playing (get_note_key note octave channel) = some i →
       ∃ r, plan[i]? = some r ∧
         turn_on_note note octave channel seconds_per_tick current_tick plan playing
             velocity =
           ((plan.set i
               { r with duration := seconds_per_tick * current_tick - r.start_seconds })
               ++ [⟨current_tick, seconds_per_tick * current_tick, note, octave, 0, velocity⟩],
            dinsert (derase playing (get_note_key note octave channel))
              (get_note_key note octave channel) plan.length)) := by
  constructor
  · exact WFkey_processEvent
  · intro note octave channel seconds_per_tick current_tick velocity plan playing i
      hwf hdash hlook
    exact turn_on_note_retrigger note octave channel seconds_per_tick current_tick
      plan playing velocity i hwf hdash hlook

theorem C1_witness :
    ∃ r, ([⟨0, 0, "C", 5, 0, 80⟩] : List PlanRecord)[0]? = some r ∧
      turn_on_note "C" 5 0 (1/96 : ℚ) 10 [⟨0, 0, "C", 5, 0, 80⟩] [("C5-0", 0)] 64 =
        (([⟨0, 0, "C", 5, 0, 80⟩].set 0
            { r with duration := (1/96 : ℚ) * (10 : Nat) - r.start_seconds })
            ++ [⟨10, (1/96 : ℚ) * (10 : Nat), "C", 5, 0, 64⟩],
         dinsert (derase [("C5-0", 0)] (get_note_key "C" 5 0))
           (get_note_key "C" 5 0) 1) := by
  have hwf : WFkey [⟨0, 0, "C", 5, 0, 80⟩] [("C5-0", 0)] := by
    intro k i h
    simp only [dlookup] at h
    by_cases hk : ("C5-0" : String) = k
    · rw [if_pos hk] at h
      subst hk
      refine ⟨⟨0, 0, "C", 5, 0, 80⟩, ?_, by decide, 0, by decide⟩
      have : i = 0 := by
        have := (Option.some.injEq _ _).mp h
        omega
      rw [this]
      rfl
    · rw [if_neg hk] at h
      exact absurd h (by simp [dlookup])
  exact C1_retrigger_law.2 "C" 5 0 (1/96 : ℚ) 10 64 [⟨0, 0, "C", 5, 0, 80⟩]
    [("C5-0", 0)] 0 hwf (by decide) (by decide)

/-- C2: the plan lists its records in non-decreasing start_tick order, and
records with equal start_tick appear in the same relative order as their
NoteOn events within that tick's event list.  The first conjunct pins the
whole sequence of creation-time signatures: one record per NoteOn, grouped by
tick in increasing order, in event order within each tick; the second conjunct
is the non-decreasing ordering it implies. -/
theorem C2_emission_order :
    ∀ (event_map : List (Nat × List MidiEvent)) (resolution : ℚ) (max_ticks : Nat)
      (initial_tempo : ℚ),
      (generate_track_plan event_map resolution max_ticks initial_tempo).map recordSig =
        planSigs event_map max_ticks ∧
      (generate_track_plan event_map resolution max_ticks initial_tempo).Pairwise
        (fun a b => a.start_tick ≤ b.start_tick) := by
  intro event_map resolution max_ticks initial_tempo
  have hsig := map_recordSig_runSched event_map resolution initial_tempo max_ticks
  refine ⟨hsig, ?_⟩
  have hmem : ∀ mt x, x ∈ planSigs event_map mt → x.1 < mt := by
    intro mt x hx
    unfold planSigs at hx
    rcases List.mem_flatMap.mp hx with ⟨t, ht, hxt⟩
    rcases List.mem_map.mp hxt with ⟨y, _, rfl⟩
    exact List.mem_range.mp ht
  have hpw : ∀ mt, (planSigs event_map mt).Pairwise (fun a b => a.1 ≤ b.1) := by
    intro mt
    induction mt with
    | zero => simp [planSigs]
    | succ n ih =>
      unfold planSigs at ih ⊢
      rw [List.range_succ, List.flatMap_append]
      rw [List.pairwise_append]
      refine ⟨ih, ?_, ?_⟩
      · simp only [List.flatMap_cons, List.flatMap_nil, List.append_nil]
        rw [List.pairwise_map]
        have hconst : ∀ l : List (Nat × Nat × Nat),
            l.Pairwise (fun a b => (sigOfOn n a).1 ≤ (sigOfOn n b).1) := by
          intro l
          induction l with
          | nil => exact List.Pairwise.nil
          | cons x xs ih => exact List.Pairwise.cons (fun y _ => Nat.le_refl n) ih
        exact hconst _
      · intro a ha b hb
        have ha' : a.1 < n := hmem n a ha
        have hb' : b.1 = n := by
          simp only [List.flatMap_cons, List.flatMap_nil, List.append_nil] at hb
          rcases List.mem_map.mp hb with ⟨y, _, rfl⟩
          rfl
        omega
  have := hpw max_ticks
  rw [← hsig] at this
  rw [List.pairwise_map] at this
  exact this.imp (fun h => h)

/-- C3: under a constant tempo of bpm beats per minute and resolution ticks
per quarter note, closing a record that a NoteOn opened at tick t_on (hence
with start_seconds equal to the coefficient times t_on) by a NoteOff on the
same NoteKey at tick t_off sets its duration_seconds to exactly
(60 / (bpm * resolution)) * (t_off - t_on), and its start_seconds equals
(60 / (bpm * resolution)) * t_on — exact rational arithmetic. -/
theorem C3_constant_tempo_duration (bpm resolution : ℚ) (note : String)
    (octave channel t_on t_off : Nat) (plan : List PlanRecord)
    (playing : List (String × Nat)) (i : Nat) (r : PlanRecord)
    (hr : plan[i]? = some r)
    (hopen : dlookup playing (get_note_key note octave channel) = some i)
    (htick : r.start_tick = t_on)
    (hss : r.start_seconds = calculate_seconds_per_tick bpm resolution * t_on) :
    (turn_off_note note octave channel (calculate_seconds_per_tick bpm resolution)
        t_off plan playing).1[i]? =
      some { r with duration := 60 / (bpm * resolution) * ((t_off : ℚ) - (t_on : ℚ)) } ∧
    r.start_seconds = 60 / (bpm * resolution) * (t_on : ℚ) := by
  constructor
  · rw [turn_off_note_close _ _ _ _ _ _ _ _ _ hopen hr]
    have hlt : i < plan.length := by
      by_contra hge
      rw [List.getElem?_eq_none (by omega)] at hr
      exact Option.noConfusion hr
    rw [List.getElem?_set_self hlt]
    have : calculate_seconds_per_tick bpm resolution * (t_off : ℚ) - r.start_seconds =
        60 / (bpm * resolution) * ((t_off : ℚ) - (t_on : ℚ)) := by
      rw [hss, calculate_seconds_per_tick_eq]
      ring
    rw [this]
  · rw [hss, calculate_seconds_per_tick_eq]

theorem C3_witness :
    (turn_off_note "C" 5 0 (calculate_seconds_per_tick 120 480) 960
        [⟨480, 1/2, "C", 5, 0, 64⟩] [("C5-0", 0)]).1[0]? =
      some ⟨480, 1/2, "C", 5, 1/2, 64⟩ := by
  have h := C3_constant_tempo_duration 120 480 "C" 5 0 480 960
    [⟨480, 1/2, "C", 5, 0, 64⟩] [("C5-0", 0)] 0 ⟨480, 1/2, "C", 5, 0, 64⟩
    rfl (by decide) rfl (by norm_num [calculate_seconds_per_tick])
  rw [h.1]
  norm_num

/-- C5: the tick-to-seconds conversion is piecewise-constant and
non-retroactive.  Processing a tempo-change event recomputes the coefficient
to 60 / (bpm * resolution) and changes nothing else (no re-integration of
already-emitted seconds: the plan and the open-note index are untouched);
a NoteOn appends a record whose start_seconds is the coefficient currently in
force multiplied by the absolute tick value. -/
theorem C5_piecewise_tempo_clock :
    ∀ (resolution : ℚ) (current_tick delta : Nat) (s : SchedState) (bpm : ℚ)
      (pitch channel velocity : Nat),
      (processEvent resolution current_tick s ⟨delta, .setTempo bpm⟩).spt =
        60 / (bpm * resolution) ∧
      (processEvent resolution current_tick s ⟨delta, .setTempo bpm⟩).plan = s.plan ∧
      (processEvent resolution current_tick s ⟨delta, .setTempo bpm⟩).playing = s.playing ∧
      (processEvent resolution current_tick s
          ⟨delta, .noteOn pitch channel velocity⟩).plan.getLast? =
        some ⟨current_tick, s.spt * current_tick, (value_to_note pitch).1,
          (value_to_note pitch).2, 0, velocity⟩ := by
  intro resolution current_tick delta s bpm pitch channel velocity
  refine ⟨?_, rfl, rfl, ?_⟩
  · simp [processEvent, calculate_seconds_per_tick_eq]
  · show (turn_on_note (value_to_note pitch).1 (value_to_note pitch).2 channel s.spt
        current_tick s.plan s.playing velocity).1.getLast? = _
    unfold turn_on_note
    exact List.getLast?_concat _

/-- C8: a NoteOff whose NoteKey has no currently open record is a silent
no-op: the whole scheduler state (plan, open-note index and tempo
coefficient) is returned unchanged, and no error is raised (the step is a
total function). -/
theorem C8_unmatched_noteoff_noop :
    ∀ (resolution : ℚ) (current_tick delta : Nat) (s : SchedState)
      (pitch channel : Nat),
      dlookup s.playing
          (get_note_key (value_to_note pitch).1 (value_to_note pitch).2 channel) = none →
      processEvent resolution current_tick s ⟨delta, .noteOff pitch channel⟩ = s := by
  intro resolution current_tick delta s pitch channel h
  show { s with
    plan := (turn_off_note (value_to_note pitch).1 (value_to_note pitch).2 channel
      s.spt current_tick s.plan s.playing).1,
    playing := (turn_off_note (value_to_note pitch).1 (value_to_note pitch).2 channel
      s.spt current_tick s.plan s.playing).2 } = s
  rw [turn_off_note_noop _ _ _ _ _ _ _ h]

theorem C8_witness :
    processEvent 480 5 ⟨[⟨0, 0, "C", 5, 0, 64⟩], [], 1/96⟩ ⟨0, .noteOff 60 0⟩ =
      ⟨[⟨0, 0, "C", 5, 0, 64⟩], [], 1/96⟩ :=
  C8_unmatched_noteoff_noop 480 5 0 ⟨[⟨0, 0, "C", 5, 0, 64⟩], [], 1/96⟩ 60 0 rfl

/-- C9: a PlanRecord's start_tick, start_seconds, note, octave and velocity
are fixed at creation; no scheduling step ever changes them (part 1: every
step preserves every existing record's non-duration fields).  Only the
duration can be revised, and once a slot is no longer tracked by the
open-note index — as happens the moment a close writes its duration — no
step touches it again and it never becomes tracked again (part 2), so the
revision happens at most once; an untracked record that was never closed
keeps the sentinel duration 0 it was created with. -/
theorem C9_record_fields_frozen :
    ∀ (resolution : ℚ) (current_tick : Nat) (s : SchedState) (event : MidiEvent),
      (∀ (i : Nat) (r : PlanRecord), s.plan[i]? = some r →
        ∃ r', (processEvent resolution current_tick s event).plan[i]? = some r' ∧
          FieldsEq r' r) ∧
      (∀ i : Nat, i < s.plan.length → (∀ k : String, dlookup s.playing k ≠ some i) →
        (processEvent resolution current_tick s event).plan[i]? = s.plan[i]? ∧
        ∀ k : String,
          dlookup (processEvent resolution current_tick s event).playing k ≠ some i) := by
  intro resolution current_tick s event
  rcases event with ⟨delta, kind⟩
  cases kind with
  | setTempo bpm =>
    exact ⟨fun i r hr => ⟨r, hr, rfl, rfl, rfl, rfl, rfl⟩,
      fun i _ hfree => ⟨rfl, hfree⟩⟩
  | noteOn pitch channel velocity =>
    constructor
    · intro i r hr
      exact fieldsEq_turn_on (value_to_note pitch).1 (value_to_note pitch).2 channel
        s.spt current_tick s.plan s.playing velocity i r hr
    · intro i hi hfree
      exact closed_slot_turn_on (value_to_note pitch).1 (value_to_note pitch).2 channel
        s.spt current_tick s.plan s.playing velocity i hi hfree
  | noteOff pitch channel =>
    constructor
    · intro i r hr
      exact fieldsEq_turn_off (value_to_note pitch).1 (value_to_note pitch).2 channel
        s.spt current_tick s.plan s.playing i r hr
    · intro i _ hfree
      exact closed_slot_turn_off (value_to_note pitch).1 (value_to_note pitch).2 channel
        s.spt current_tick s.plan s.playing i hfree
  | trackName text =>
    exact ⟨fun i r hr => ⟨r, hr, rfl, rfl, rfl, rfl, rfl⟩,
      fun i _ hfree => ⟨rfl, hfree⟩⟩
  | otherEvent =>
    exact ⟨fun i r hr => ⟨r, hr, rfl, rfl, rfl, rfl, rfl⟩,
      fun i _ hfree => ⟨rfl, hfree⟩⟩

theorem C9_witness :
    ∃ r', (processEvent 480 10 ⟨[⟨0, 0, "C", 5, 0, 80⟩], [("C5-0", 0)], 1/96⟩
        ⟨0, .noteOn 60 0 64⟩).plan[0]? = some r' ∧
      FieldsEq r' ⟨0, 0, "C", 5, 0, 80⟩ :=
  (C9_record_fields_frozen 480 10 ⟨[⟨0, 0, "C", 5, 0, 80⟩], [("C5-0", 0)], 1/96⟩
    ⟨0, .noteOn 60 0 64⟩).1 0 ⟨0, 0, "C", 5, 0, 80⟩ rfl

/-- C10: the scheduler's loop runs over ticks 0 to max_ticks exclusive, where
max_ticks is the largest cumulative tick total over the tracks, so events at
tick max_ticks are never processed: the generated plan only depends on the
event map strictly below max_ticks (part 1); on a concrete stream whose
longest track ends with a NoteOff at its final tick 1, analyze_midi reports
max_ticks 1, and the note opened at tick 0 keeps the sustain-sentinel
duration 0 because its closing NoteOff at tick 1 falls outside the range
(part 2). -/
theorem C10_final_tick_never_processed :
    (∀ (event_map event_map' : List (Nat × List MidiEvent)) (resolution : ℚ)
       (max_ticks : Nat) (initial_tempo : ℚ),
       (∀ t, t < max_ticks → dlookup event_map t = dlookup event_map' t) →
       generate_track_plan event_map resolution max_ticks initial_tempo =
         generate_track_plan event_map' resolution max_ticks initial_tempo)
    ∧ analyze_midi [demoTrack] = (1, some 120)
    ∧ generate_track_plan (map_events_by_tick demoTrack) 480 1 120 =
        [⟨0, 0, "C", 5, 0, 64⟩] := by
  refine ⟨?_, rfl, ?_⟩
  case refine_2 =>
    unfold generate_track_plan runSched
    norm_num [map_events_by_tick, addToMap, List.range_succ, processTick, dlookup,
      processEvent, turn_on_note, turn_off_note, value_to_note, NOTE_NAMES,
      get_note_key, dinsert, derase]
  intro event_map event_map' resolution max_ticks initial_tempo hagree
  have haux : ∀ (l : List Nat) (s : SchedState),
      (∀ t ∈ l, dlookup event_map t = dlookup event_map' t) →
      l.foldl (processTick event_map resolution) s =
        l.foldl (processTick event_map' resolution) s := by
    intro l
    induction l with
    | nil => intro s _; rfl
    | cons t l' ih =>
      intro s hl
      rw [List.foldl_cons, List.foldl_cons]
      have hstep : processTick event_map resolution s t =
          processTick event_map' resolution s t := by
        unfold processTick
        rw [hl t (List.mem_cons_self t l')]
      rw [hstep]
      exact ih _ (fun u hu => hl u (List.mem_cons_of_mem t hu))
  unfold generate_track_plan runSched
  rw [haux (List.range max_ticks) _
    (fun t ht => hagree t (List.mem_range.mp ht))]

theorem C10_witness :
    generate_track_plan (map_events_by_tick demoTrack) 480 1 120 =
      generate_track_plan
        (map_events_by_tick demoTrack ++ [(99, [⟨0, .noteOn 61 0 64⟩])]) 480 1 120 :=
  C10_final_tick_never_processed.1 (map_events_by_tick demoTrack)
    (map_events_by_tick demoTrack ++ [(99, [⟨0, .noteOn 61 0 64⟩])]) 480 1 120
    (by
      intro t ht
      interval_cases t
      rfl)

/-- C4 counterexample: on four records at ticks 0, 10, 20, 30 with threshold
15 the claim's partition (consume exactly group_size records, then scan the
next record as a fresh leader) yields two groups of two, but the code's lane
assigner forces the record after the first group into a solo and leaves the
last record solo as well, so the claimed annotations are wrong at records 2
and 3. -/
theorem C4_counterexample :
    lane_annotations 15 cexPlan = [(0, 2), (1, 2), (0, 0), (0, 0)] ∧
    claimLaneGroups 15 cexPlan = [(0, 2), (1, 2), (0, 2), (1, 2)] ∧
    lane_annotations 15 cexPlan ≠ claimLaneGroups 15 cexPlan := by
  have h1 : lane_annotations 15 cexPlan = [(0, 2), (1, 2), (0, 0), (0, 0)] := by decide
  have h2 : claimLaneGroups 15 cexPlan = [(0, 2), (1, 2), (0, 2), (1, 2)] := by
    norm_num [claimLaneGroups, cexPlan, lookCount, List.range_succ]
  exact ⟨h1, h2, by rw [h1, h2]; decide⟩

/-- C4 amended: the lane assigner scans left to right; at a record reached
with no pending countdown it counts the consecutive following records whose
start tick differs from its own by strictly less than the threshold; a
positive count k makes a group of k+1 records with lane_index 0..k in scan
order, after which the single record immediately following the group (when
one exists) is also consumed as a forced solo (annotated (0, 0)) without
being scanned as a leader; a record with count 0 is a solo annotated
(0, 0).  Equivalently, the annotations are exactly `amendedLaneGroups`; the
spec's own two-record example still forms one group of two. -/
theorem C4_amended_lane_grouping :
    (∀ (threshold : Nat) (plan : List PlanRecord),
       lane_annotations threshold plan = amendedLaneGroups threshold plan) ∧
    lane_annotations 100 pairPlan = [(0, 2), (1, 2)] :=
  ⟨fun threshold plan => laneGo_eq_amended threshold plan.length plan (Nat.le_refl _),
   by decide⟩

/-- C6 counterexample: with a clip directory holding exactly C2.mp4 and
C3.mp4, resolving ("C", 1) should — per the claim's search outward from the
home octave 3 toward octave 1, i.e. trying 3 then 2 then 1 — return C3.mp4,
but the code searches from the requested octave toward home (1, 2, 3) and
returns C2.mp4. -/
theorem C6_counterexample :
    dlookup (map_videos cexFs "videos") "C1" = some "videos/C2.mp4" ∧
    claimResolve cexFs "videos" "C" 1 = some "videos/C3.mp4" ∧
    some ("videos/C2.mp4" : String) ≠ some ("videos/C3.mp4" : String) := by
  refine ⟨?_, by decide, by decide⟩
  have h := map_videos_lookup cexFs "videos" 12 (by norm_num)
  have hk : noteKeyOf 12 = "C1" := by decide
  rw [hk] at h
  rw [h]
  decide

/-- C6 amended: for every (note_class, octave) request the mapping entry of
`map_videos` equals the first existing file among: the exact
"{note_class}{octave}" file, the octave-less "{note_class}" file, and then
the octaves from the REQUESTED octave toward the home octave 3 — ascending
requested..3 when the request is at or below home, descending requested..4
(home itself excluded) when above; if none exists the entry is absent.  In
particular a directory holding only the octave-less file for a note class
resolves every octave of that class to it. -/
theorem C6_amended_clip_resolution :
    (∀ (isfile : String → Bool) (video_dir : String) (n : Fin 128),
       dlookup (map_videos isfile video_dir) (noteKeyOf n.val) =
         amendedResolve isfile video_dir (value_to_note n.val).1
           (value_to_note n.val).2) ∧
    (∀ oct : Fin 11, findPath fsOnlyC "videos" "C" oct.val = some "videos/C.mp4") := by
  constructor
  · intro isfile video_dir n
    rw [map_videos_lookup isfile video_dir n.val n.isLt]
    exact findPath_eq_amended isfile video_dir _ _
  · decide

/-- C7 counterexample: on a run with a malformed background colour the
program does fail fatally, but only after plan generation: the completed-phase
trace of the render path contains the plan-generation phase before the error
is raised, refuting "rejected before any scheduling work begins". -/
theorem C7_counterexample :
    Phase.planGenerated ∈
      (main_render demoPattern 480 1 "notacolor" (fun _ => false) "videos").1 ∧
    (main_render demoPattern 480 1 "notacolor" (fun _ => false) "videos").2 =
      Except.error "input #notacolor is not in #RRGGBB format" := by
  decide

/-- C7 amended: for every run whose background-colour string is rejected by
the colour parser (`hex_to_rgb` returns an error), and that reaches the
colour parse at all (the printed track-name lookup, the track grab and the
initial tempo all succeed), the program fails fatally with that parser error
— but the failure is raised only after plan generation (the render call's
arguments are evaluated after the plan is built at line 318), not before
scheduling work begins. -/
theorem C7_amended_bad_color_fatal_after_plan (pattern : List (List MidiEvent))
    (resolution : ℚ) (track : Nat) (bg : String) (isfile : String → Bool)
    (video_dir : String) (e : String)
    (hname : ((get_track_names pattern)[track - 1]?).isSome = true)
    (htrack : (grab_track_by_index pattern track).isSome = true)
    (htempo : ((analyze_midi pattern).2).isSome = true)
    (hbg : hex_to_rgb bg = .error e) :
    (main_render pattern resolution track bg isfile video_dir).2 = .error e ∧
    Phase.planGenerated ∈ (main_render pattern resolution track bg isfile video_dir).1 := by
  unfold main_render
  rcases h1 : (get_track_names pattern)[track - 1]? with _ | nm
  · rw [h1] at hname; exact absurd hname (by simp)
  · rcases h2 : grab_track_by_index pattern track with _ | tr
    · rw [h2] at htrack; exact absurd htrack (by simp)
    · rcases h3 : (analyze_midi pattern).2 with _ | t0
      · rw [h3] at htempo; exact absurd htempo (by simp)
      · simp only [h1, h2, h3, hbg]
        simp [List.mem_append]

theorem C7_witness :
    (main_render demoPattern 480 1 "zz" (fun _ => false) "videos").2 =
      Except.error "input #zz is not in #RRGGBB format" ∧
    Phase.planGenerated ∈
      (main_render demoPattern 480 1 "zz" (fun _ => false) "videos").1 :=
  C7_amended_bad_color_fatal_after_plan demoPattern 480 1 "zz" (fun _ => false)
    "videos" "input #zz is not in #RRGGBB format"
    (by decide) (by decide) (by decide) (by decide)

end MidiToVideo
